import Mathlib

/-!
Verification of the nftables-to-Prometheus exporter
(`prometheus-nftables-exporter.py`) against its design document.

The script keeps a global `Context` object `ctx` holding the parsed
ruleset and the metric lines built so far; `generate_metrics` resets
`ctx.metrics`, loads the ruleset, and runs the three per-kind
generators; `do_GET` routes on the parsed URL path and writes the HTTP
response.  The embedding below reproduces those functions over explicit
state.  Machine-level concerns (the actual `libnftables` call, JSON
lexing, sockets) are represented at the boundary where the script
consumes them: the result of `ctx.nft.cmd("list ruleset")` is a return
code, a diagnostic string, and the output, the output being represented
by what `json.loads(output)["nftables"]` yields - a list of tagged
ruleset objects when it parses, or a raised decode error when it does
not.
-/

set_option autoImplicit false

/-- Payload of a `table` ruleset object: `i["table"]["family"]`,
`i["table"]["name"]`. -/
structure TableData where
  family : String
  name : String
deriving DecidableEq, Repr

/-- Payload of a `chain` ruleset object: family, table, name. -/
structure ChainData where
  family : String
  table : String
  name : String
deriving DecidableEq, Repr

/-- Payload of a `counter` ruleset object: family, table, name, and the
two non-negative integer readings. -/
structure CounterData where
  family : String
  table : String
  name : String
  packets : Nat
  bytes : Nat
deriving DecidableEq, Repr

/-- One element of the `json.loads(output)["nftables"]` array.  Every
object in the nft JSON output is a single-key dictionary tagging its
kind; `other` covers the kinds the exporter ignores (`rule`, `set`,
`metainfo`, ...), remembering only the tag. -/
inductive NftObj where
  | table (t : TableData)
  | chain (c : ChainData)
  | counter (c : CounterData)
  | other (kind : String)
deriving DecidableEq, Repr

/-- Python `type in o` on a single-key ruleset dictionary: the key of
the object equals the requested kind string. -/
def NftObj.hasKey : NftObj → String → Bool
  | .table _, k => k == "table"
  | .chain _, k => k == "chain"
  | .counter _, k => k == "counter"
  | .other kind, k => k == kind

/-- Field access `i["table"]` after `_find_objs("table")` has selected
the object; the default is unreachable on such objects. -/
def NftObj.tableData : NftObj → TableData
  | .table t => t
  | _ => ⟨"", ""⟩

/-- Field access `i["chain"]`. -/
def NftObj.chainData : NftObj → ChainData
  | .chain c => c
  | _ => ⟨"", "", ""⟩

/-- Field access `i["counter"]`. -/
def NftObj.counterData : NftObj → CounterData
  | .counter c => c
  | _ => ⟨"", "", "", 0, 0⟩

/-- The mutable fields of the global `Context` the pipeline touches:
`ctx.ruleset` and `ctx.metrics` (`ctx.args` and `ctx.nft` are read-only
configuration and are not modelled). -/
structure Ctx where
  ruleset : List NftObj
  metrics : List String
deriving DecidableEq, Repr

/-- Result of `ctx.nft.cmd("list ruleset")` as the script consumes it:
return code `rc`, diagnostic `error`, and the output represented by
`parsed` = what `json.loads(output)["nftables"]` yields (`none` when
`json.loads` raises, e.g. on the empty output an unprivileged or failed
engine call produces). -/
structure CmdResult where
  rc : Int
  parsed : Option (List NftObj)
  error : String
deriving DecidableEq, Repr

/-- The Python exceptions that can escape the pipeline in this model. -/
inductive PyErr where
  | jsonDecodeError
deriving DecidableEq, Repr

/-- Outcome of running one (possibly raising) stateful step: the state
after the step, the exception that escaped it if any, and the log lines
it emitted. -/
structure StepResult where
  ctx : Ctx
  exc : Option PyErr
  log : List String
deriving DecidableEq, Repr

/-- Embeds `load_nft_ruleset` (lines 37-44): on `rc != 0` it only logs
the engine's diagnostic and still proceeds; `json.loads(output)` either
yields the object list stored into `ctx.ruleset` or raises. -/
def load_nft_ruleset (cmd : CmdResult) (ctx : Ctx) : StepResult :=
  let log := if cmd.rc ≠ 0 then [cmd.error] else []
  match cmd.parsed with
  | some objs => ⟨{ ctx with ruleset := objs }, none, log⟩
  | none => ⟨ctx, some PyErr.jsonDecodeError, log⟩

/-- Embeds `_find_objs` (lines 47-48): the comprehension
filtering `ctx.ruleset` by key membership. -/
def find_objs (ruleset : List NftObj) (type : String) : List NftObj :=
  ruleset.filter (fun o => o.hasKey type)

/-- The line format of `generate_table_metrics` (line 54). -/
def tableLine (t : TableData) : String :=
  "nft_table\x7bfamily=\"" ++ (t.family ++ ("\", name=\"" ++ (t.name ++ "\"\x7d 1")))

/-- The line format of `generate_chain_metrics` (line 63). -/
def chainLine (c : ChainData) : String :=
  "nft_chain\x7bfamily=\"" ++ (c.family ++ ("\", table=\"" ++ (c.table ++
    ("\", name=\"" ++ (c.name ++ "\"\x7d 1")))))

/-- The first line format of `generate_counter_metrics` (line 72). -/
def counterPacketsLine (c : CounterData) : String :=
  "nft_counter_packets\x7bfamily=\"" ++ (c.family ++ ("\", table=\"" ++ (c.table ++
    ("\", name=\"" ++ (c.name ++ ("\"\x7d " ++ toString c.packets))))))

/-- The second line format of `generate_counter_metrics` (line 80). -/
def counterBytesLine (c : CounterData) : String :=
  "nft_counter_bytes\x7bfamily=\"" ++ (c.family ++ ("\", table=\"" ++ (c.table ++
    ("\", name=\"" ++ (c.name ++ ("\"\x7d " ++ toString c.bytes))))))

/-- Embeds `generate_table_metrics` (lines 51-57): the loop appending
one formatted line per table object to `ctx.metrics`. -/
def generate_table_metrics (ctx : Ctx) : Ctx :=
  { ctx with
    metrics :=
      (find_objs ctx.ruleset "table").foldl
        (fun m i => m ++ [tableLine i.tableData]) ctx.metrics }

/-- Embeds `generate_chain_metrics` (lines 60-66). -/
def generate_chain_metrics (ctx : Ctx) : Ctx :=
  { ctx with
    metrics :=
      (find_objs ctx.ruleset "chain").foldl
        (fun m i => m ++ [chainLine i.chainData]) ctx.metrics }

/-- Embeds `generate_counter_metrics` (lines 69-86): per counter object,
two successive appends (packets line, then bytes line). -/
def generate_counter_metrics (ctx : Ctx) : Ctx :=
  { ctx with
    metrics :=
      (find_objs ctx.ruleset "counter").foldl
        (fun m i =>
          (m ++ [counterPacketsLine i.counterData]) ++
            [counterBytesLine i.counterData]) ctx.metrics }

/-- Embeds `generate_metrics` (lines 89-94): reset `ctx.metrics`, load
the ruleset (an escaping exception aborts the rest), then run the three
generators in order. -/
def generate_metrics (cmd : CmdResult) (ctx : Ctx) : StepResult :=
  let ctx1 : Ctx := { ctx with metrics := [] }
  let r := load_nft_ruleset cmd ctx1
  match r.exc with
  | some e => ⟨r.ctx, some e, r.log⟩
  | none =>
      ⟨generate_counter_metrics (generate_chain_metrics
          (generate_table_metrics r.ctx)), none, r.log⟩

/-- The flattener's output as a function of the snapshot: the metric
lines `generate_metrics` leaves in `ctx.metrics` when the load step
yielded `objs`. -/
def metricsOf (objs : List NftObj) : List String :=
  (generate_counter_metrics (generate_chain_metrics
      (generate_table_metrics ⟨objs, []⟩))).metrics

/-- Embeds the run-once branch of `main` (lines 207-210): print the
joined metric lines and exit 0; an exception escaping `generate_metrics`
is uncaught there, so the interpreter prints nothing to stdout and exits
with status 1. -/
def run_once (cmd : CmdResult) : Option String × Nat :=
  let r := generate_metrics cmd ⟨[], []⟩
  match r.exc with
  | none => (some (String.intercalate "\n" r.ctx.metrics), 0)
  | some _ => (none, 1)

/-- The value `prometheus_client.CONTENT_TYPE_LATEST` sent as the
Content-Type of a successful `/metrics` response. -/
def CONTENT_TYPE_LATEST : String := "text/plain; version=0.0.4; charset=utf-8"

/-- The static landing page literal of `do_GET` (lines 122-128),
newlines and indentation as in the source. -/
def landingPage : String :=
  "<html>\n            <head><title>prometheus nftables exporter</title></head>\n            <body>\n            <h1>prometheus nftables exporter</h1>\n            <p>Visit <code>/metrics</code> to use.</p>\n            </body>\n            </html>"

/-- Renders `traceback.format_exc()` for the exception caught in
`do_GET`; the handler never transmits it (see `wfile_write`), so only
its type (a Python `str`) matters. -/
def format_exc (e : PyErr) : String :=
  match e with
  | PyErr.jsonDecodeError =>
      "Traceback (most recent call last): json.decoder.JSONDecodeError"

/-- Python values passed to `wfile.write`: the success paths pass
`bytes` (they call `.encode("utf-8")`), the except branch passes the
`str` returned by `traceback.format_exc()`. -/
inductive PyVal where
  | str (s : String)
  | bytes (s : String)

/-- What one HTTP request handler cycle has put on the wire: the status
line sent by `send_response`, the headers, the body bytes written so
far, and whether the handler aborted with an uncaught exception
(connection closed with no further body). -/
structure Conn where
  status : Option Nat
  headers : List (String × String)
  body : String
  aborted : Bool
deriving DecidableEq, Repr

/-- A freshly accepted connection. -/
def conn0 : Conn := ⟨none, [], "", false⟩

/-- `BaseHTTPRequestHandler.send_response`: buffers the status line
(flushed by `end_headers`). -/
def send_response (c : Conn) (code : Nat) : Conn := { c with status := some code }

/-- `send_header`: buffers one header. -/
def send_header (c : Conn) (k v : String) : Conn :=
  { c with headers := c.headers ++ [(k, v)] }

/-- `end_headers`: flushes the buffered status line and headers; in this
model they are already recorded, so it is the identity. -/
def end_headers (c : Conn) : Conn := c

/-- `self.wfile.write(v)`: the socket stream is binary, so writing
`bytes` appends them to the body while writing a `str` raises
`TypeError`, which escapes the handler and aborts the response with no
body added. -/
def wfile_write (c : Conn) : PyVal → Conn
  | PyVal.bytes s => { c with body := c.body ++ s }
  | PyVal.str _ => { c with aborted := true }

/-- The `_splitparams` step of `urllib.parse.urlparse`, applied when the
path contains a semicolon: cut the last path segment at its first
semicolon (a semicolon in an earlier segment is kept). -/
def splitparams (l : List Char) : List Char :=
  if '/' ∈ l then
    let seg := (l.reverse.takeWhile (fun c => c ≠ '/')).reverse
    if ';' ∈ seg then
      l.take (l.length - seg.length) ++ seg.takeWhile (fun c => c ≠ ';')
    else l
  else l.takeWhile (fun c => c ≠ ';')

/-- The characters CPython's `urlsplit` accepts in a scheme:
ASCII letters, digits, plus, minus and dot. -/
def isSchemeChar (c : Char) : Bool :=
  c.isAlpha || c.isDigit || c = '+' || c = '-' || c = '.'

/-- Scan for the colon ending a scheme: succeeds at the first colon
provided every character before it is a scheme character; a non-scheme
character or the end of the target means no scheme is split off. -/
def schemeSplitAux (acc : List Char) : List Char → Option (List Char × List Char)
  | [] => none
  | c :: rest =>
      if c = ':' then some (acc, rest)
      else if isSchemeChar c then schemeSplitAux (acc ++ [c]) rest
      else none

/-- The scheme handling of `urllib.parse.urlsplit` (CPython 3.11+): if
the target starts with an ASCII letter and its first colon is preceded
only by scheme characters, the lowercased prefix is the scheme and the
rest follows the colon; otherwise the scheme is empty and the target is
untouched. -/
def splitScheme (l : List Char) : List Char × List Char :=
  match l with
  | [] => ([], [])
  | c :: _ =>
      if c.isAlpha then
        match schemeSplitAux [] l with
        | some (s, rest) => (s.map Char.toLower, rest)
        | none => ([], l)
      else ([], l)

/-- The delimiters ending the netloc in `_splitnetloc`. -/
def isNetlocEnd (c : Char) : Bool :=
  c = '/' || c = '?' || c = '#'

/-- The fragment and query removal of `urlsplit`: the fragment is
everything from the first hash, then the query is everything from the
first question mark of what remains; the path is what is left. -/
def pathOf (l : List Char) : List Char :=
  (l.takeWhile (fun c => c ≠ '#')).takeWhile (fun c => c ≠ '?')

/-- Hexadecimal digit as accepted by `ipaddress._parse_hextet` and the
IPvFuture pattern. -/
def isHexDig (c : Char) : Bool :=
  c.isDigit || ('a' ≤ c && c ≤ 'f') || ('A' ≤ c && c ≤ 'F')

/-- A valid IPv6 hextet per `ipaddress._parse_hextet`: one to four hex
digits. -/
def isHextet (p : List Char) : Bool :=
  decide (p ≠ []) && decide (p.length ≤ 4) && p.all isHexDig

/-- Decimal value of an ASCII digit string. -/
def octetVal (p : List Char) : Nat :=
  p.foldl (fun a c => a * 10 + (c.toNat - 48)) 0

/-- A valid IPv4 octet per `ipaddress._parse_octet`: one to three ASCII
digits, no leading zero unless the octet is exactly 0, value at most
255. -/
def ipv4Octet (p : List Char) : Bool :=
  decide (p ≠ []) && decide (p.length ≤ 3) && p.all Char.isDigit &&
    (decide (p = ['0']) || decide (p.headD ' ' ≠ '0')) &&
    decide (octetVal p ≤ 255)

/-- A valid dotted-quad IPv4 address: exactly four valid octets. -/
def isIPv4 (l : List Char) : Bool :=
  let parts := l.splitOn '.'
  decide (parts.length = 4) && parts.all ipv4Octet

/-- Validity of the colon-split part list of an IPv6 address, following
`ipaddress.IPv6Address._ip_int_from_string`: at most nine parts, at most
one empty interior part (the double colon), a leading or trailing colon
only as half of a double colon, at least one group actually skipped, and
every consumed part a valid hextet. -/
def isIPv6Parts (parts : List (List Char)) : Bool :=
  if parts.length < 3 then false
  else if 9 < parts.length then false
  else
    let interior := (parts.drop 1).dropLast
    let empties := interior.countP (fun p => decide (p = []))
    if 1 < empties then false
    else if empties = 1 then
      let skip := interior.findIdx (fun p => decide (p = [])) + 1
      let headE := decide (parts.headD [' '] = [])
      let lastE := decide (parts.getLastD [' '] = [])
      let hi := if headE then skip - 1 else skip
      let lo := if lastE then parts.length - skip - 2 else parts.length - skip - 1
      (!headE || decide (skip = 1)) && (!lastE || decide (parts.length - skip - 1 = 1)) &&
        decide (hi + lo ≤ 7) && (parts.take hi).all isHextet &&
        ((parts.drop (parts.length - lo)).all isHextet)
    else
      decide (parts.length = 8) && decide (parts.headD [] ≠ []) &&
        decide (parts.getLastD [] ≠ []) && parts.all isHextet

/-- A valid textual IPv6 address with optional zone, following
`ipaddress.IPv6Address`: an optional nonempty percent-free scope after a
percent sign, and a part list in which a final dotted part must be a
valid IPv4 address standing for two hextets. -/
def isIPv6Host (h : List Char) : Bool :=
  let addr := h.takeWhile (fun c => c ≠ '%')
  let scope := (h.dropWhile (fun c => c ≠ '%')).drop 1
  ((!decide ('%' ∈ h)) || (decide (scope ≠ []) && decide ('%' ∉ scope))) &&
    (let parts := addr.splitOn ':'
     match parts.getLast? with
     | none => false
     | some last =>
         if '.' ∈ last then
           isIPv4 last && isIPv6Parts (parts.dropLast ++ [['0'], ['0']])
         else isIPv6Parts parts)

/-- The host between the brackets of the netloc:
`netloc.partition('[')[2].partition(']')[0]`. -/
def bracketedHost (netloc : List Char) : List Char :=
  ((netloc.dropWhile (fun c => c ≠ '[')).drop 1).takeWhile (fun c => c ≠ ']')

/-- `urllib.parse._check_bracketed_host` (CPython 3.11+): a host
starting with a lowercase v must match the IPvFuture pattern (v, hex
digits, a dot, then at least one further character, none a newline);
any other host must be a valid IPv6 address (a valid IPv4 address is
also rejected, and it is never a valid IPv6 address). -/
def checkBracketedHost (h : List Char) : Bool :=
  match h with
  | 'v' :: rest =>
      let hx := rest.takeWhile isHexDig
      let after := rest.dropWhile isHexDig
      decide (hx ≠ []) &&
        (match after with
         | '.' :: tail => decide (tail ≠ []) && decide ('\n' ∉ tail)
         | _ => false)
  | _ => isIPv6Host h

/-- The netloc checks of `urlsplit` that raise ValueError (CPython
3.11+): a square bracket on only one side, or a balanced bracket pair
whose host fails `_check_bracketed_host` (interpreters before 3.11 only
performed the mismatch check).  The NFKC confusable check of
`_checknetloc` can only raise for characters beyond Latin-1, which
`self.path` - decoded from the request line as iso-8859-1 - never
contains, so it is modelled as passing. -/
def invalidNetloc (netloc : List Char) : Bool :=
  if ('[' ∈ netloc ∧ ']' ∉ netloc) ∨ (']' ∈ netloc ∧ '[' ∉ netloc) then true
  else if '[' ∈ netloc ∧ ']' ∈ netloc then !checkBracketedHost (bracketedHost netloc)
  else false

/-- The netloc handling of `urlsplit` on the post-scheme target,
followed by fragment/query removal: a target starting with two slashes
has its netloc cut at the first slash, question mark or hash
(`_splitnetloc`), an invalid netloc raises ValueError (`none`), and the
path is what follows the netloc. -/
def netPath (l : List Char) : Option (List Char) :=
  if l.take 2 = ['/', '/'] then
    let l2 := l.drop 2
    let netloc := l2.takeWhile (fun c => !isNetlocEnd c)
    let l3 := l2.dropWhile (fun c => !isNetlocEnd c)
    if invalidNetloc netloc = true then none
    else some (pathOf l3)
  else some (pathOf l)

/-- The scheme and path of `urllib.parse.urlsplit(self.path)`, or
`none` when it raises ValueError.  The removal of tab, CR and LF
CPython applies first is omitted: `self.path` comes from the
whitespace-split request line, so it never contains these characters. -/
def urlsplit_path (l : List Char) : Option (List Char × List Char) :=
  let sp := splitScheme l
  match netPath sp.2 with
  | none => none
  | some p => some (sp.1, p)

/-- The schemes for which `urlparse` splits semicolon parameters off
the path (`urllib.parse.uses_params`). -/
def uses_params : List String :=
  ["", "ftp", "hdl", "prospero", "http", "imap", "https", "shttp", "rtsp",
   "rtspu", "sip", "sips", "mms", "sftp", "tel"]

/-- `urllib.parse.urlparse(self.path).path`, or `none` when urlparse
raises ValueError: urlsplit, then parameter splitting when the scheme
uses parameters and the path holds a semicolon. -/
def urlparse_path (url : String) : Option String :=
  match urlsplit_path url.data with
  | none => none
  | some (s, p) =>
      if (⟨s⟩ : String) ∈ uses_params ∧ ';' ∈ p then some ⟨splitparams p⟩
      else some ⟨p⟩

/-- The body of `do_GET` after `url = urlparse(self.path)` (lines
107-134): branch on `url.path`. -/
def route (cmd : CmdResult) (path : String) (ctx : Ctx) (c : Conn) : Ctx × Conn :=
  if path = "/metrics" then
    let r := generate_metrics cmd ctx
    match r.exc with
    | none =>
        let c1 := send_response c 200
        let c2 := send_header c1 "Content-Type" CONTENT_TYPE_LATEST
        let c3 := end_headers c2
        (r.ctx, wfile_write c3 (PyVal.bytes (String.intercalate "\n" r.ctx.metrics)))
    | some e =>
        let c1 := send_response c 500
        let c2 := end_headers c1
        (r.ctx, wfile_write c2 (PyVal.str (format_exc e)))
  else if path = "/" then
    (ctx, wfile_write (end_headers (send_response c 200)) (PyVal.bytes landingPage))
  else
    (ctx, end_headers (send_response c 404))

/-- Embeds `do_GET` (lines 105-134): parse the request target, then
route on its path component.  The `urlparse` call on line 106 sits
outside the try block, so a ValueError it raises escapes the handler
before anything is sent: the connection is closed with no response. -/
def do_GET (cmd : CmdResult) (reqPath : String) (ctx : Ctx) (c : Conn) : Ctx × Conn :=
  match urlparse_path reqPath with
  | none => (ctx, { c with aborted := true })
  | some path => route cmd path ctx c

/-! ## Observables used to state the properties -/

/-- The metric name of an emitted exposition line: the characters before
the opening brace of the label block. -/
def metricName (line : String) : String :=
  ⟨line.data.takeWhile (fun c => c ≠ '\x7b')⟩

/-- Entity classifier: the object is a table entity. -/
def NftObj.isTable : NftObj → Bool
  | .table _ => true
  | _ => false

/-- Entity classifier: the object is a chain entity. -/
def NftObj.isChain : NftObj → Bool
  | .chain _ => true
  | _ => false

/-- Entity classifier: the object is a counter entity. -/
def NftObj.isCounter : NftObj → Bool
  | .counter _ => true
  | _ => false

/-- A ruleset object is well-kinded when an ignored kind does not reuse
one of the three recognised tags (in the nft JSON schema the tags
`table`, `chain`, `counter` are exactly those entity kinds). -/
def NftObj.wfKind : NftObj → Bool
  | .other k => !(k == "table" || k == "chain" || k == "counter")
  | _ => true

/-- A snapshot is well-kinded when all its objects are. -/
@[reducible]
def WfRuleset (objs : List NftObj) : Prop :=
  objs.all NftObj.wfKind = true

/-- Modelled from the spec: the exposition format's label-value escaping
rule - backslash-escape the double quote and the backslash, render a
newline as a backslash followed by the letter n. -/
def escapeLabelValue (s : String) : String :=
  ⟨s.data.flatMap (fun c =>
    if c = '\\' then ['\\', '\\']
    else if c = '"' then ['\\', '"']
    else if c = '\n' then ['\\', 'n']
    else [c])⟩

/-- The table segment of the flattener's output. -/
def tablesPart (objs : List NftObj) : List String :=
  (find_objs objs "table").map (fun o => tableLine o.tableData)

/-- The chain segment of the flattener's output. -/
def chainsPart (objs : List NftObj) : List String :=
  (find_objs objs "chain").map (fun o => chainLine o.chainData)

/-- The counter segment of the flattener's output: a packets line
immediately followed by a bytes line, per counter object. -/
def countersPart (objs : List NftObj) : List String :=
  (find_objs objs "counter").flatMap
    (fun o => [counterPacketsLine o.counterData, counterBytesLine o.counterData])

/-! ## Helper lemmas -/

theorem foldl_snoc_eq_map {α : Type} (f : α → String) (l : List α)
    (acc : List String) :
    l.foldl (fun m i => m ++ [f i]) acc = acc ++ l.map f := by
  induction l generalizing acc with
  | nil => simp
  | cons a as ih => simp [List.foldl_cons, ih, List.append_assoc]

theorem foldl_snoc2_eq_flatMap {α : Type} (f g : α → String) (l : List α)
    (acc : List String) :
    l.foldl (fun m i => (m ++ [f i]) ++ [g i]) acc =
      acc ++ l.flatMap (fun i => [f i, g i]) := by
  induction l generalizing acc with
  | nil => simp
  | cons a as ih =>
      rw [List.foldl_cons, ih]
      simp [List.append_assoc]

theorem takeWhile_append_stop {α : Type} (p : α → Bool) (l₁ l₂ : List α)
    (h : l₁.all p = false) :
    (l₁ ++ l₂).takeWhile p = l₁.takeWhile p := by
  induction l₁ with
  | nil => simp at h
  | cons a as ih =>
      by_cases hp : p a
      · simp only [List.all_cons, hp, Bool.true_and] at h
        simp [List.takeWhile_cons, hp, ih h]
      · simp [List.takeWhile_cons, hp]

theorem takeWhile_append_all {α : Type} (p : α → Bool) (l₁ l₂ : List α)
    (h : l₁.all p = true) :
    (l₁ ++ l₂).takeWhile p = l₁ ++ l₂.takeWhile p := by
  induction l₁ with
  | nil => simp
  | cons a as ih =>
      simp only [List.all_cons, Bool.and_eq_true] at h
      simp [List.takeWhile_cons, h.1, ih h.2]

theorem metricName_tableLine (t : TableData) :
    metricName (tableLine t) = "nft_table" := by
  unfold metricName tableLine
  simp only [String.data_append]
  rw [takeWhile_append_stop _ _ _ (by decide)]
  decide

theorem metricName_chainLine (c : ChainData) :
    metricName (chainLine c) = "nft_chain" := by
  unfold metricName chainLine
  simp only [String.data_append]
  rw [takeWhile_append_stop _ _ _ (by decide)]
  decide

theorem metricName_counterPacketsLine (c : CounterData) :
    metricName (counterPacketsLine c) = "nft_counter_packets" := by
  unfold metricName counterPacketsLine
  simp only [String.data_append]
  rw [takeWhile_append_stop _ _ _ (by decide)]
  decide

theorem metricName_counterBytesLine (c : CounterData) :
    metricName (counterBytesLine c) = "nft_counter_bytes" := by
  unfold metricName counterBytesLine
  simp only [String.data_append]
  rw [takeWhile_append_stop _ _ _ (by decide)]
  decide

theorem metrics_split (objs : List NftObj) :
    metricsOf objs = tablesPart objs ++ chainsPart objs ++ countersPart objs := by
  unfold metricsOf generate_table_metrics generate_chain_metrics
    generate_counter_metrics tablesPart chainsPart countersPart
  simp only [foldl_snoc_eq_map, foldl_snoc2_eq_flatMap]
  simp [List.append_assoc]

theorem hasKey_table_eq_isTable (o : NftObj) (h : o.wfKind = true) :
    o.hasKey "table" = o.isTable := by
  cases o with
  | table t => rfl
  | chain c => rfl
  | counter c => rfl
  | other k =>
      simp only [NftObj.wfKind, Bool.not_eq_true', Bool.or_eq_false_iff] at h
      simp only [NftObj.hasKey, NftObj.isTable]
      rw [beq_eq_false_iff_ne]
      intro e
      exact absurd (beq_iff_eq.mpr e.symm) (by rw [h.1.1]; exact Bool.false_ne_true)

theorem beq_false_symm {k s : String} (h : (k == s) = false) : (s == k) = false := by
  rw [beq_eq_false_iff_ne] at h ⊢
  exact fun e => h e.symm

theorem hasKey_chain_eq_isChain (o : NftObj) (h : o.wfKind = true) :
    o.hasKey "chain" = o.isChain := by
  cases o with
  | table t => rfl
  | chain c => rfl
  | counter c => rfl
  | other k =>
      simp only [NftObj.wfKind, Bool.not_eq_true', Bool.or_eq_false_iff] at h
      exact beq_false_symm h.1.2

theorem hasKey_counter_eq_isCounter (o : NftObj) (h : o.wfKind = true) :
    o.hasKey "counter" = o.isCounter := by
  cases o with
  | table t => rfl
  | chain c => rfl
  | counter c => rfl
  | other k =>
      simp only [NftObj.wfKind, Bool.not_eq_true', Bool.or_eq_false_iff] at h
      exact beq_false_symm h.2

theorem find_objs_table (objs : List NftObj) (h : WfRuleset objs) :
    find_objs objs "table" = objs.filter NftObj.isTable :=
  List.filter_congr fun o ho =>
    hasKey_table_eq_isTable o (List.all_eq_true.mp h o ho)

theorem find_objs_chain (objs : List NftObj) (h : WfRuleset objs) :
    find_objs objs "chain" = objs.filter NftObj.isChain :=
  List.filter_congr fun o ho =>
    hasKey_chain_eq_isChain o (List.all_eq_true.mp h o ho)

theorem find_objs_counter (objs : List NftObj) (h : WfRuleset objs) :
    find_objs objs "counter" = objs.filter NftObj.isCounter :=
  List.filter_congr fun o ho =>
    hasKey_counter_eq_isCounter o (List.all_eq_true.mp h o ho)

theorem name_of_mem_tablesPart (objs : List NftObj) (x : String)
    (hx : x ∈ tablesPart objs) : metricName x = "nft_table" := by
  obtain ⟨o, _, rfl⟩ := List.mem_map.mp hx
  exact metricName_tableLine _

theorem name_of_mem_chainsPart (objs : List NftObj) (x : String)
    (hx : x ∈ chainsPart objs) : metricName x = "nft_chain" := by
  obtain ⟨o, _, rfl⟩ := List.mem_map.mp hx
  exact metricName_chainLine _

theorem name_of_mem_countersPart (objs : List NftObj) (x : String)
    (hx : x ∈ countersPart objs) :
    metricName x = "nft_counter_packets" ∨ metricName x = "nft_counter_bytes" := by
  obtain ⟨o, _, hmem⟩ := List.mem_flatMap.mp hx
  simp only [List.mem_cons, List.not_mem_nil, or_false] at hmem
  rcases hmem with rfl | rfl
  · exact Or.inl (metricName_counterPacketsLine _)
  · exact Or.inr (metricName_counterBytesLine _)

theorem countP_flatMap_pairs {α : Type} (f g : α → String) (P : String → Bool)
    (l : List α) (hf : ∀ a, P (f a) = true) (hg : ∀ a, P (g a) = false) :
    (l.flatMap fun a => [f a, g a]).countP P = l.length := by
  induction l with
  | nil => rfl
  | cons a as ih =>
      simp [List.flatMap_cons, List.countP_append, List.countP_cons, hf a, hg a, ih,
        Nat.add_comm]

theorem length_flatMap_pairs {α : Type} (f g : α → String) (l : List α) :
    (l.flatMap fun a => [f a, g a]).length = 2 * l.length := by
  induction l with
  | nil => rfl
  | cons a as ih => simp [List.flatMap_cons, ih]; omega

theorem getD_append_ge {α : Type} (A B : List α) (d : α) (i : Nat)
    (h : A.length ≤ i) : (A ++ B).getD i d = B.getD (i - A.length) d := by
  simp [List.getD_eq_getElem?_getD, List.getElem?_append_right h]

theorem getD_append_lt {α : Type} (A B : List α) (d : α) (i : Nat)
    (h : i < A.length) : (A ++ B).getD i d = A.getD i d := by
  simp [List.getD_eq_getElem?_getD, List.getElem?_append_left h]

theorem getD_mem {α : Type} (l : List α) (d : α) (i : Nat) (h : i < l.length) :
    l.getD i d ∈ l := by
  rw [List.getD_eq_getElem l d h]
  exact List.getElem_mem h

theorem idx_lt_of_pred {α : Type} (d : α) (P : α → Prop) (A B : List α) (i : Nat)
    (hi : i < (A ++ B).length) (hB : ∀ x ∈ B, ¬ P x)
    (hP : P ((A ++ B).getD i d)) : i < A.length := by
  by_contra hge
  push_neg at hge
  rw [getD_append_ge A B d i hge] at hP
  have hlen : i - A.length < B.length := by
    simp only [List.length_append] at hi
    omega
  exact hB _ (getD_mem B d _ hlen) hP

theorem len_le_idx_of_pred {α : Type} (d : α) (P : α → Prop) (A B : List α) (j : Nat)
    (hA : ∀ x ∈ A, ¬ P x) (hP : P ((A ++ B).getD j d)) : A.length ≤ j := by
  by_contra hlt
  push_neg at hlt
  rw [getD_append_lt A B d j hlt] at hP
  exact hA _ (getD_mem A d _ hlt) hP

theorem flatMap_pairs_adjacent {α : Type} (f g : α → String) (l : List α)
    (nm : String) (hg : ∀ a, metricName (g a) ≠ nm) (i : Nat)
    (hn : metricName ((l.flatMap fun a => [f a, g a]).getD i "") = nm)
    (hi : i < (l.flatMap fun a => [f a, g a]).length) :
    ∃ a ∈ l, (l.flatMap fun a => [f a, g a]).getD i "" = f a ∧
      i + 1 < (l.flatMap fun a => [f a, g a]).length ∧
      (l.flatMap fun a => [f a, g a]).getD (i + 1) "" = g a := by
  induction l generalizing i with
  | nil => simp at hi
  | cons a as ih =>
      match i with
      | 0 =>
          refine ⟨a, List.mem_cons_self a as, ?_, ?_, ?_⟩
          · simp [List.flatMap_cons]
          · simp [List.flatMap_cons]
          · simp [List.flatMap_cons]
      | 1 =>
          exfalso
          apply hg a
          simpa [List.flatMap_cons] using hn
      | (m + 2) =>
          have hn' : metricName ((as.flatMap fun a => [f a, g a]).getD m "") = nm := by
            simpa [List.flatMap_cons, List.getD_cons_succ] using hn
          have hi' : m < (as.flatMap fun a => [f a, g a]).length := by
            simp only [List.flatMap_cons, List.cons_append, List.nil_append,
              List.length_cons] at hi
            omega
          obtain ⟨b, hb, h1, h2, h3⟩ := ih m hn' hi'
          refine ⟨b, List.mem_cons_of_mem a hb, ?_, ?_, ?_⟩
          · simpa [List.flatMap_cons, List.getD_cons_succ] using h1
          · simp only [List.flatMap_cons, List.cons_append, List.nil_append,
              List.length_cons]
            omega
          · simpa [List.flatMap_cons, List.getD_cons_succ] using h3

theorem filter_flatMap_pairs {α : Type} (f g : α → String) (P : String → Bool)
    (l : List α) (hf : ∀ a, P (f a) = true) (hg : ∀ a, P (g a) = false) :
    (l.flatMap fun a => [f a, g a]).filter P = l.map f := by
  induction l with
  | nil => rfl
  | cons a as ih => simp [List.flatMap_cons, List.filter_append, hf a, hg a, ih]

theorem takeWhile_all {α : Type} (p : α → Bool) (l : List α) (h : l.all p = true) :
    l.takeWhile p = l := by
  induction l with
  | nil => rfl
  | cons a as ih =>
      simp only [List.all_cons, Bool.and_eq_true] at h
      simp [List.takeWhile_cons, h.1, ih h.2]

theorem all_ne_of_not_mem {c : Char} {l : List Char} (h : c ∉ l) :
    (l.all fun x => x ≠ c) = true := by
  rw [List.all_eq_true]
  intro x hx
  simp only [ne_eq, decide_not, Bool.not_eq_eq_eq_not, Bool.not_true, decide_eq_false_iff_not]
  exact fun e => h (e ▸ hx)

theorem dropWhile_append_stop {α : Type} (p : α → Bool) (l₁ l₂ : List α)
    (h : l₁.all p = false) :
    (l₁ ++ l₂).dropWhile p = l₁.dropWhile p ++ l₂ := by
  induction l₁ with
  | nil => simp at h
  | cons a as ih =>
      by_cases hp : p a
      · simp only [List.all_cons, hp, Bool.true_and] at h
        simp [List.dropWhile_cons, hp, ih h]
      · simp [List.dropWhile_cons, hp]

theorem dropWhile_append_all {α : Type} (p : α → Bool) (l₁ l₂ : List α)
    (h : l₁.all p = true) :
    (l₁ ++ l₂).dropWhile p = l₂.dropWhile p := by
  induction l₁ with
  | nil => simp
  | cons a as ih =>
      simp only [List.all_cons, Bool.and_eq_true] at h
      simp [List.dropWhile_cons, h.1, ih h.2]

theorem mem_of_mem_dropWhile {α : Type} (p : α → Bool) (l : List α) (c : α)
    (h : c ∈ l.dropWhile p) : c ∈ l := by
  induction l with
  | nil => simp at h
  | cons a as ih =>
      by_cases hp : p a
      · simp only [List.dropWhile_cons, hp, if_true] at h
        exact List.mem_cons_of_mem a (ih h)
      · simp only [List.dropWhile_cons, hp, if_false] at h
        exact h

theorem schemeSplitAux_append (acc xs r : List Char) (sep : Char)
    (h1 : isSchemeChar sep = false) (h2 : sep ≠ ':') :
    schemeSplitAux acc (xs ++ sep :: r) =
      match schemeSplitAux acc xs with
      | some (s, rest) => some (s, rest ++ sep :: r)
      | none => none := by
  induction xs generalizing acc with
  | nil =>
      simp only [List.nil_append, schemeSplitAux]
      rw [if_neg h2, if_neg (by simp [h1])]
  | cons c cs ih =>
      simp only [List.cons_append, schemeSplitAux]
      by_cases hc : c = ':'
      · rw [if_pos hc, if_pos hc]
        rfl
      · rw [if_neg hc, if_neg hc]
        by_cases hsc : isSchemeChar c = true
        · rw [if_pos hsc, if_pos hsc]
          exact ih _
        · rw [if_neg hsc, if_neg hsc]

theorem mem_schemeSplitAux_rest (acc xs s rest : List Char)
    (h : schemeSplitAux acc xs = some (s, rest)) : ∀ c ∈ rest, c ∈ xs := by
  induction xs generalizing acc with
  | nil => simp [schemeSplitAux] at h
  | cons c cs ih =>
      simp only [schemeSplitAux] at h
      by_cases hc : c = ':'
      · rw [if_pos hc] at h
        simp only [Option.some.injEq, Prod.mk.injEq] at h
        intro x hx
        rw [← h.2] at hx
        exact List.mem_cons_of_mem _ hx
      · rw [if_neg hc] at h
        by_cases hsc : isSchemeChar c = true
        · rw [if_pos hsc] at h
          intro x hx
          exact List.mem_cons_of_mem _ (ih _ h x hx)
        · rw [if_neg hsc] at h
          simp at h

theorem splitScheme_append (xs r : List Char) (sep : Char)
    (h1 : isSchemeChar sep = false) (h2 : sep ≠ ':') (h3 : sep.isAlpha = false) :
    splitScheme (xs ++ sep :: r) =
      ((splitScheme xs).1, (splitScheme xs).2 ++ sep :: r) := by
  cases xs with
  | nil =>
      simp only [List.nil_append, splitScheme]
      rw [if_neg (by simp [h3])]
  | cons c cs =>
      simp only [List.cons_append, splitScheme]
      by_cases hc : c.isAlpha = true
      · rw [if_pos hc, if_pos hc]
        rw [show c :: (cs ++ sep :: r) = (c :: cs) ++ sep :: r from rfl]
        rw [schemeSplitAux_append [] (c :: cs) r sep h1 h2]
        cases haux : schemeSplitAux [] (c :: cs) with
        | none => rfl
        | some pr => cases pr; rfl
      · rw [if_neg hc, if_neg hc]
        rfl

theorem splitScheme_snd_mem (xs : List Char) :
    ∀ c ∈ (splitScheme xs).2, c ∈ xs := by
  cases xs with
  | nil => simp [splitScheme]
  | cons a as =>
      simp only [splitScheme]
      by_cases ha : a.isAlpha = true
      · rw [if_pos ha]
        cases haux : schemeSplitAux [] (a :: as) with
        | none => exact fun c hc => hc
        | some pr =>
            cases pr with
            | mk s rest => exact mem_schemeSplitAux_rest [] (a :: as) s rest haux
      · rw [if_neg ha]
        exact fun c hc => hc

theorem pathOf_no_delims (X : List Char) (h1 : '?' ∉ X) (h2 : '#' ∉ X) :
    pathOf X = X := by
  unfold pathOf
  rw [takeWhile_all _ _ (all_ne_of_not_mem h2), takeWhile_all _ _ (all_ne_of_not_mem h1)]

theorem pathOf_append_sep (X r : List Char) (sep : Char)
    (hsep : sep = '?' ∨ sep = '#') (h1 : '?' ∉ X) (h2 : '#' ∉ X) :
    pathOf (X ++ sep :: r) = X := by
  unfold pathOf
  rcases hsep with rfl | rfl
  · rw [takeWhile_append_all _ _ _ (all_ne_of_not_mem h2)]
    rw [show ('?' :: r).takeWhile (fun c => c ≠ '#') =
      '?' :: r.takeWhile (fun c => c ≠ '#') from rfl]
    rw [takeWhile_append_all _ _ _ (all_ne_of_not_mem h1)]
    rw [show (('?' :: r.takeWhile (fun c => c ≠ '#')).takeWhile
      (fun c => c ≠ '?')) = [] from rfl]
    exact List.append_nil _
  · rw [takeWhile_append_all _ _ _ (all_ne_of_not_mem h2)]
    rw [show ('#' :: r).takeWhile (fun c => c ≠ '#') = [] from rfl]
    rw [List.append_nil]
    exact takeWhile_all _ _ (all_ne_of_not_mem h1)

theorem pathOf_sep_head (r : List Char) (sep : Char)
    (hsep : sep = '?' ∨ sep = '#') : pathOf (sep :: r) = [] := by
  rcases hsep with rfl | rfl <;> rfl

theorem netPath_append (X r : List Char) (sep : Char)
    (hsep : sep = '?' ∨ sep = '#') (h1 : '?' ∉ X) (h2 : '#' ∉ X) :
    netPath (X ++ sep :: r) = netPath X := by
  have hslash : sep ≠ '/' := by rcases hsep with rfl | rfl <;> decide
  have htake_eq : ((X ++ sep :: r).take 2 = ['/', '/']) ↔
      (X.take 2 = ['/', '/']) := by
    rcases X with _ | ⟨c1, _ | ⟨c2, X2⟩⟩
    · simp only [List.nil_append, List.take_succ_cons, List.take_nil]
      constructor
      · intro hx
        exact absurd (List.head_eq_of_cons_eq hx) hslash
      · intro hx
        exact absurd hx (by simp)
    · simp only [List.cons_append, List.nil_append, List.take_succ_cons,
        List.take_nil]
      constructor
      · intro hx
        exact absurd (List.head_eq_of_cons_eq (List.tail_eq_of_cons_eq hx)) hslash
      · intro hx
        exact absurd (List.tail_eq_of_cons_eq hx) (by simp)
    · simp [List.take_succ_cons]
  unfold netPath
  by_cases ht : X.take 2 = ['/', '/']
  · rw [if_pos (htake_eq.mpr ht), if_pos ht]
    have hXlen : 2 ≤ X.length := by
      by_contra hlt
      push_neg at hlt
      rw [List.take_of_length_le (by omega)] at ht
      have := congrArg List.length ht
      simp at this
      omega
    rw [List.drop_append_of_le_length hXlen]
    dsimp only
    have h1' : '?' ∉ X.drop 2 := fun hc => h1 (List.mem_of_mem_drop hc)
    have h2' : '#' ∉ X.drop 2 := fun hc => h2 (List.mem_of_mem_drop hc)
    by_cases hall : (X.drop 2).all (fun c => !isNetlocEnd c) = true
    · rw [takeWhile_append_all _ _ _ hall, dropWhile_append_all _ _ _ hall]
      rw [show (sep :: r).takeWhile (fun c => !isNetlocEnd c) = [] from by
        rcases hsep with rfl | rfl <;> rfl]
      rw [show (sep :: r).dropWhile (fun c => !isNetlocEnd c) = sep :: r from by
        rcases hsep with rfl | rfl <;> rfl]
      rw [List.append_nil]
      rw [takeWhile_all _ _ hall, List.dropWhile_eq_nil_iff.mpr
        (fun x hx => List.all_eq_true.mp hall x hx)]
      rw [pathOf_sep_head r sep hsep]
      rfl
    · have hall' : (X.drop 2).all (fun c => !isNetlocEnd c) = false := by
        simpa using hall
      rw [takeWhile_append_stop _ _ _ hall', dropWhile_append_stop _ _ _ hall']
      have hD1 : '?' ∉ (X.drop 2).dropWhile (fun c => !isNetlocEnd c) :=
        fun hc => h1' (mem_of_mem_dropWhile _ _ _ hc)
      have hD2 : '#' ∉ (X.drop 2).dropWhile (fun c => !isNetlocEnd c) :=
        fun hc => h2' (mem_of_mem_dropWhile _ _ _ hc)
      rw [pathOf_append_sep _ r sep hsep hD1 hD2,
        pathOf_no_delims _ hD1 hD2]
  · rw [if_neg (fun hc => ht (htake_eq.mp hc)), if_neg ht]
    rw [pathOf_append_sep X r sep hsep h1 h2, pathOf_no_delims X h1 h2]

theorem urlparse_path_append (p : String) (r : List Char) (sep : Char)
    (hsep : sep = '?' ∨ sep = '#') (h1 : '?' ∉ p.data) (h2 : '#' ∉ p.data) :
    urlparse_path ⟨p.data ++ sep :: r⟩ = urlparse_path p := by
  have hsch : isSchemeChar sep = false := by rcases hsep with rfl | rfl <;> rfl
  have hcol : sep ≠ ':' := by rcases hsep with rfl | rfl <;> decide
  have halpha : sep.isAlpha = false := by rcases hsep with rfl | rfl <;> rfl
  unfold urlparse_path urlsplit_path
  rw [show (⟨p.data ++ sep :: r⟩ : String).data = p.data ++ sep :: r from rfl]
  rw [splitScheme_append p.data r sep hsch hcol halpha]
  dsimp only
  have hm1 : '?' ∉ (splitScheme p.data).2 :=
    fun hc => h1 (splitScheme_snd_mem p.data _ hc)
  have hm2 : '#' ∉ (splitScheme p.data).2 :=
    fun hc => h2 (splitScheme_snd_mem p.data _ hc)
  rw [netPath_append _ r sep hsep hm1 hm2]

example : urlparse_path "/metrics;p=1" = some "/metrics" := by decide

example : urlparse_path "/a;b/c" = some "/a;b/c" := by decide

example : urlparse_path "/a#f?q" = some "/a" := by decide

example : urlparse_path "///metrics" = some "/metrics" := by decide

example : urlparse_path "//x/metrics" = some "/metrics" := by decide

example : urlparse_path "http://h/metrics" = some "/metrics" := by decide

example : urlparse_path "HTTP://h/metrics;b" = some "/metrics" := by decide

example : urlparse_path "//[x/metrics" = none := by decide

example : urlparse_path "//x#f/metrics" = some "" := by decide

example : urlparse_path "1://x/metrics" = some "1://x/metrics" := by decide

example : urlparse_path "foo:/a;b" = some "/a;b" := by decide

example : urlparse_path "tel:/m;x" = some "/m" := by decide

example : urlparse_path "/a:b" = some "/a:b" := by decide

example : urlparse_path "//[::1]/m" = some "/m" := by decide

example : urlparse_path "//[fe80::1%eth0]/m" = some "/m" := by decide

example : urlparse_path "//[v6]/metrics" = none := by decide

example : urlparse_path "//[1.2.3.4]/m" = none := by decide

example : urlparse_path "//[vab.cd]/m" = some "/m" := by decide

theorem do_GET_metrics (cmd : CmdResult) (ctx : Ctx) (c : Conn) :
    do_GET cmd "/metrics" ctx c = route cmd "/metrics" ctx c := by
  unfold do_GET
  rw [show urlparse_path "/metrics" = some "/metrics" from by decide]

example :
    (do_GET ⟨0, some [], ""⟩ "/metrics" ⟨[], []⟩ conn0).2 =
      ⟨some 200, [("Content-Type", CONTENT_TYPE_LATEST)], "", false⟩ := by decide

example :
    (do_GET ⟨0, none, ""⟩ "/metrics" ⟨[], []⟩ conn0).2 =
      ⟨some 500, [], "", true⟩ := by decide

example :
    (do_GET ⟨1, some [], "permission denied"⟩ "/metrics" ⟨[], []⟩ conn0).2.status =
      some 200 := by decide

theorem countP_flatMap_pairs_snd {α : Type} (f g : α → String) (P : String → Bool)
    (l : List α) (hf : ∀ a, P (f a) = false) (hg : ∀ a, P (g a) = true) :
    (l.flatMap fun a => [f a, g a]).countP P = l.length := by
  induction l with
  | nil => rfl
  | cons a as ih =>
      simp [List.flatMap_cons, List.countP_append, List.countP_cons, hf a, hg a, ih,
        Nat.add_comm]

theorem filter_flatMap_pairs_snd {α : Type} (f g : α → String) (P : String → Bool)
    (l : List α) (hf : ∀ a, P (f a) = false) (hg : ∀ a, P (g a) = true) :
    (l.flatMap fun a => [f a, g a]).filter P = l.map g := by
  induction l with
  | nil => rfl
  | cons a as ih => simp [List.flatMap_cons, List.filter_append, hf a, hg a, ih]

/-! ## The claims -/

/-- C1: for every well-kinded snapshot holding N table entities, M chain
entities and K counter entities, the flattener emits exactly N lines
named nft_table, M named nft_chain, K named nft_counter_packets and K
named nft_counter_bytes, and nothing else (the total length is
N + M + 2K, so entities of any other kind contribute no line). -/
theorem c1_flattener_counts (objs : List NftObj) (h : WfRuleset objs) :
    (metricsOf objs).countP (fun l => metricName l == "nft_table") =
        (objs.filter NftObj.isTable).length ∧
    (metricsOf objs).countP (fun l => metricName l == "nft_chain") =
        (objs.filter NftObj.isChain).length ∧
    (metricsOf objs).countP (fun l => metricName l == "nft_counter_packets") =
        (objs.filter NftObj.isCounter).length ∧
    (metricsOf objs).countP (fun l => metricName l == "nft_counter_bytes") =
        (objs.filter NftObj.isCounter).length ∧
    (metricsOf objs).length =
        (objs.filter NftObj.isTable).length + (objs.filter NftObj.isChain).length +
          2 * (objs.filter NftObj.isCounter).length := by
  have hTlen : (tablesPart objs).length = (objs.filter NftObj.isTable).length := by
    unfold tablesPart
    rw [List.length_map, find_objs_table objs h]
  have hClen : (chainsPart objs).length = (objs.filter NftObj.isChain).length := by
    unfold chainsPart
    rw [List.length_map, find_objs_chain objs h]
  have hKlen : (countersPart objs).length = 2 * (objs.filter NftObj.isCounter).length := by
    unfold countersPart
    rw [length_flatMap_pairs, find_objs_counter objs h]
  have cTt : (tablesPart objs).countP (fun l => metricName l == "nft_table") =
      (tablesPart objs).length :=
    List.countP_eq_length.mpr fun a ha => by
      simp [name_of_mem_tablesPart objs a ha]
  have cCt : (chainsPart objs).countP (fun l => metricName l == "nft_table") = 0 :=
    List.countP_eq_zero.mpr fun a ha => by
      simp [name_of_mem_chainsPart objs a ha]
  have cKt : (countersPart objs).countP (fun l => metricName l == "nft_table") = 0 :=
    List.countP_eq_zero.mpr fun a ha => by
      rcases name_of_mem_countersPart objs a ha with h1 | h1 <;> simp [h1]
  have cTc : (tablesPart objs).countP (fun l => metricName l == "nft_chain") = 0 :=
    List.countP_eq_zero.mpr fun a ha => by
      simp [name_of_mem_tablesPart objs a ha]
  have cCc : (chainsPart objs).countP (fun l => metricName l == "nft_chain") =
      (chainsPart objs).length :=
    List.countP_eq_length.mpr fun a ha => by
      simp [name_of_mem_chainsPart objs a ha]
  have cKc : (countersPart objs).countP (fun l => metricName l == "nft_chain") = 0 :=
    List.countP_eq_zero.mpr fun a ha => by
      rcases name_of_mem_countersPart objs a ha with h1 | h1 <;> simp [h1]
  have cTp : (tablesPart objs).countP (fun l => metricName l == "nft_counter_packets") = 0 :=
    List.countP_eq_zero.mpr fun a ha => by
      simp [name_of_mem_tablesPart objs a ha]
  have cCp : (chainsPart objs).countP (fun l => metricName l == "nft_counter_packets") = 0 :=
    List.countP_eq_zero.mpr fun a ha => by
      simp [name_of_mem_chainsPart objs a ha]
  have cKp : (countersPart objs).countP (fun l => metricName l == "nft_counter_packets") =
      (objs.filter NftObj.isCounter).length := by
    unfold countersPart
    rw [countP_flatMap_pairs _ _ _ _
      (fun a => by simp [metricName_counterPacketsLine])
      (fun a => by simp [metricName_counterBytesLine]), find_objs_counter objs h]
  have cTb : (tablesPart objs).countP (fun l => metricName l == "nft_counter_bytes") = 0 :=
    List.countP_eq_zero.mpr fun a ha => by
      simp [name_of_mem_tablesPart objs a ha]
  have cCb : (chainsPart objs).countP (fun l => metricName l == "nft_counter_bytes") = 0 :=
    List.countP_eq_zero.mpr fun a ha => by
      simp [name_of_mem_chainsPart objs a ha]
  have cKb : (countersPart objs).countP (fun l => metricName l == "nft_counter_bytes") =
      (objs.filter NftObj.isCounter).length := by
    unfold countersPart
    rw [countP_flatMap_pairs_snd _ _ _ _
      (fun a => by simp [metricName_counterPacketsLine])
      (fun a => by simp [metricName_counterBytesLine]), find_objs_counter objs h]
  refine ⟨?_, ?_, ?_, ?_, ?_⟩
  · rw [metrics_split]
    simp only [List.countP_append]
    rw [cTt, cCt, cKt, hTlen]
    omega
  · rw [metrics_split]
    simp only [List.countP_append]
    rw [cTc, cCc, cKc, hClen]
    omega
  · rw [metrics_split]
    simp only [List.countP_append]
    rw [cTp, cCp, cKp]
    omega
  · rw [metrics_split]
    simp only [List.countP_append]
    rw [cTb, cCb, cKb]
    omega
  · rw [metrics_split]
    simp only [List.length_append]
    rw [hTlen, hClen, hKlen]

theorem c1_flattener_counts_witness :
    WfRuleset
        [NftObj.table ⟨"ip", "filter"⟩, NftObj.other "metainfo",
         NftObj.chain ⟨"ip", "filter", "input"⟩,
         NftObj.counter ⟨"ip", "filter", "cnt", 5, 6⟩, NftObj.other "rule"] ∧
    ((metricsOf
        [NftObj.table ⟨"ip", "filter"⟩, NftObj.other "metainfo",
         NftObj.chain ⟨"ip", "filter", "input"⟩,
         NftObj.counter ⟨"ip", "filter", "cnt", 5, 6⟩, NftObj.other "rule"]).length = 4) :=
  ⟨by decide,
   by
    have h := c1_flattener_counts
      [NftObj.table ⟨"ip", "filter"⟩, NftObj.other "metainfo",
       NftObj.chain ⟨"ip", "filter", "input"⟩,
       NftObj.counter ⟨"ip", "filter", "cnt", 5, 6⟩, NftObj.other "rule"] (by decide)
    rw [h.2.2.2.2]
    decide⟩

/-- C2 counterexample: a reachable GET target whose authority has a
square bracket on only one side makes the line-106 urlparse call raise
ValueError before anything is sent, so the request is answered with no
status line at all - neither 200 nor 404 - even though the engine is
healthy. -/
theorem c2_counterexample :
    urlparse_path "//[x/metrics" = none ∧
    do_GET ⟨0, some [], ""⟩ "//[x/metrics" ⟨[], []⟩ conn0 =
      (⟨[], []⟩, ⟨none, [], "", true⟩) := by
  exact ⟨rfl, rfl⟩

/-- C2 amended: for every request whose target urlparse can parse, the
server routes on the parsed path: path /metrics runs the pipeline and on
success responds 200 with the encoded lines and the exposition content
type; path / responds 200 with the static landing page, independently of
the engine result and leaving the context untouched; any other parsed
path responds 404 with an empty body; a target urlparse rejects
(mismatched IPv6 bracket in the authority) aborts the handler and the
connection is closed with no response. -/
theorem c2_routing (cmd : CmdResult) (ctx : Ctx) (url : String) :
    (∀ objs, urlparse_path url = some "/metrics" → cmd.parsed = some objs →
      (do_GET cmd url ctx conn0).2 =
        ⟨some 200, [("Content-Type", CONTENT_TYPE_LATEST)],
          String.intercalate "\n" (metricsOf objs), false⟩) ∧
    (urlparse_path url = some "/" →
      do_GET cmd url ctx conn0 = (ctx, ⟨some 200, [], landingPage, false⟩)) ∧
    (∀ P, urlparse_path url = some P → P ≠ "/metrics" → P ≠ "/" →
      do_GET cmd url ctx conn0 = (ctx, ⟨some 404, [], "", false⟩)) ∧
    (urlparse_path url = none →
      do_GET cmd url ctx conn0 = (ctx, ⟨none, [], "", true⟩)) := by
  refine ⟨?_, ?_, ?_, ?_⟩
  · intro objs hm hp
    unfold do_GET
    rw [hm]
    show (route cmd "/metrics" ctx conn0).2 = _
    unfold route generate_metrics load_nft_ruleset
    rw [hp, if_pos rfl]
    rfl
  · intro hm
    unfold do_GET
    rw [hm]
    show route cmd "/" ctx conn0 = _
    unfold route
    rw [if_neg (by decide), if_pos rfl]
    rfl
  · intro P hm hP1 hP2
    unfold do_GET
    rw [hm]
    show route cmd P ctx conn0 = _
    unfold route
    rw [if_neg hP1, if_neg hP2]
    rfl
  · intro hm
    unfold do_GET
    rw [hm]
    rfl

theorem c2_routing_witness :
    ((do_GET ⟨0, some [NftObj.table ⟨"ip", "filter"⟩], ""⟩ "//x/metrics" ⟨[], []⟩
        conn0).2 =
      ⟨some 200, [("Content-Type", CONTENT_TYPE_LATEST)],
        String.intercalate "\n" (metricsOf [NftObj.table ⟨"ip", "filter"⟩]),
        false⟩) ∧
    (do_GET ⟨0, some [NftObj.table ⟨"ip", "filter"⟩], ""⟩ "/" ⟨[], []⟩ conn0 =
      (⟨[], []⟩, ⟨some 200, [], landingPage, false⟩)) ∧
    (do_GET ⟨0, some [NftObj.table ⟨"ip", "filter"⟩], ""⟩ "/favicon.ico" ⟨[], []⟩
        conn0 =
      (⟨[], []⟩, ⟨some 404, [], "", false⟩)) ∧
    (do_GET ⟨0, some [NftObj.table ⟨"ip", "filter"⟩], ""⟩ "///metrics" ⟨[], []⟩
        conn0).2.status = some 200 :=
  ⟨(c2_routing _ _ _).1 [NftObj.table ⟨"ip", "filter"⟩] (by decide) rfl,
   (c2_routing _ _ _).2.1 (by decide),
   (c2_routing _ _ _).2.2.1 "/favicon.ico" (by decide) (by decide) (by decide),
   by
    rw [(c2_routing _ _ _).1 [NftObj.table ⟨"ip", "filter"⟩] (by decide) rfl]⟩

/-- C3 counterexample: with return code 1 and an output that parses (an
empty ruleset document), the loader raises no error, stores the parsed
ruleset (it did proceed to parse), and the /metrics request succeeds
with 200 rather than failing with 500. -/
theorem c3_counterexample :
    (load_nft_ruleset ⟨1, some [], "Operation not permitted"⟩ ⟨[], []⟩).exc =
        none ∧
    (load_nft_ruleset ⟨1, some [], "Operation not permitted"⟩
        ⟨[NftObj.other "stale"], []⟩).ctx.ruleset = [] ∧
    (do_GET ⟨1, some [], "Operation not permitted"⟩ "/metrics" ⟨[], []⟩
        conn0).2.status = some 200 ∧
    (run_once ⟨1, some [], "Operation not permitted"⟩).2 = 0 := by
  exact ⟨rfl, rfl, rfl, rfl⟩

/-- C3 amended: when the engine reports a non-zero status the loader
logs the diagnostic text and still proceeds to parse the output; the
scrape fails only when the output does not parse, and then it surfaces
as a 500 on /metrics in server mode and a non-zero exit in run-once
mode. -/
theorem c3_amended_log_and_parse (cmd : CmdResult) (ctx : Ctx)
    (h : cmd.rc ≠ 0) :
    (load_nft_ruleset cmd ctx).log = [cmd.error] ∧
    (∀ objs, cmd.parsed = some objs →
      (load_nft_ruleset cmd ctx).exc = none ∧
      (load_nft_ruleset cmd ctx).ctx.ruleset = objs) ∧
    (cmd.parsed = none →
      (do_GET cmd "/metrics" ctx conn0).2.status = some 500 ∧
      (run_once cmd).2 ≠ 0) := by
  refine ⟨?_, ?_, ?_⟩
  · unfold load_nft_ruleset
    cases cmd.parsed <;> simp [h]
  · intro objs hp
    unfold load_nft_ruleset
    rw [hp]
    exact ⟨rfl, rfl⟩
  · intro hp
    constructor
    · rw [do_GET_metrics]
      unfold route generate_metrics load_nft_ruleset
      rw [hp, if_pos rfl]
      rfl
    · unfold run_once generate_metrics load_nft_ruleset
      rw [hp]
      show (1 : Nat) ≠ 0
      decide

theorem c3_amended_witness :
    (load_nft_ruleset ⟨1, none, "boom"⟩ ⟨[], []⟩).log = ["boom"] ∧
    (do_GET ⟨1, none, "boom"⟩ "/metrics" ⟨[], []⟩ conn0).2.status = some 500 ∧
    (run_once ⟨1, none, "boom"⟩).2 ≠ 0 :=
  ⟨(c3_amended_log_and_parse ⟨1, none, "boom"⟩ ⟨[], []⟩ (by decide)).1,
   ((c3_amended_log_and_parse ⟨1, none, "boom"⟩ ⟨[], []⟩ (by decide)).2.2 rfl).1,
   ((c3_amended_log_and_parse ⟨1, none, "boom"⟩ ⟨[], []⟩ (by decide)).2.2 rfl).2⟩

/-- C4: when the loader raises (the engine output does not parse), the
handler sends status 500 but then passes the Python str returned by
traceback.format_exc() to the binary response stream, which raises
TypeError and aborts the handler: the 500 response goes out with an
empty body instead of the claimed diagnostic body. -/
theorem c4_500_empty_body (cmd : CmdResult) (ctx : Ctx)
    (h : cmd.parsed = none) :
    (do_GET cmd "/metrics" ctx conn0).2.status = some 500 ∧
    (do_GET cmd "/metrics" ctx conn0).2.body = "" ∧
    (do_GET cmd "/metrics" ctx conn0).2.aborted = true := by
  rw [do_GET_metrics]
  unfold route generate_metrics load_nft_ruleset
  rw [h, if_pos rfl]
  exact ⟨rfl, rfl, rfl⟩

theorem c4_500_empty_body_witness :
    (do_GET ⟨0, none, ""⟩ "/metrics" ⟨[], []⟩ conn0).2.status = some 500 ∧
    (do_GET ⟨0, none, ""⟩ "/metrics" ⟨[], []⟩ conn0).2.body = "" ∧
    (do_GET ⟨0, none, ""⟩ "/metrics" ⟨[], []⟩ conn0).2.aborted = true :=
  c4_500_empty_body ⟨0, none, ""⟩ ⟨[], []⟩ rfl

/-- C5 counterexample: in the snapshot the chain entity appears before
the table entity, yet the flattener emits the table's record first, so a
record extracted from the later entity precedes the record extracted
from the earlier one. -/
theorem c5_counterexample :
    (metricsOf [NftObj.chain ⟨"ip", "t0", "c0"⟩, NftObj.table ⟨"ip", "t0"⟩]).length
        = 2 ∧
    metricName ((metricsOf [NftObj.chain ⟨"ip", "t0", "c0"⟩,
        NftObj.table ⟨"ip", "t0"⟩]).getD 0 "") = "nft_table" ∧
    metricName ((metricsOf [NftObj.chain ⟨"ip", "t0", "c0"⟩,
        NftObj.table ⟨"ip", "t0"⟩]).getD 1 "") = "nft_chain" := by
  decide

theorem parts_within_kind (objs : List NftObj) (h : WfRuleset objs) :
    (metricsOf objs).filter (fun l => metricName l == "nft_table") =
        (objs.filter NftObj.isTable).map (fun o => tableLine o.tableData) ∧
    (metricsOf objs).filter (fun l => metricName l == "nft_chain") =
        (objs.filter NftObj.isChain).map (fun o => chainLine o.chainData) ∧
    (metricsOf objs).filter (fun l => metricName l == "nft_counter_packets") =
        (objs.filter NftObj.isCounter).map (fun o => counterPacketsLine o.counterData) ∧
    (metricsOf objs).filter (fun l => metricName l == "nft_counter_bytes") =
        (objs.filter NftObj.isCounter).map (fun o => counterBytesLine o.counterData) := by
  have fT : ∀ nm : String, nm ≠ "nft_table" →
      (tablesPart objs).filter (fun l => metricName l == nm) = [] := fun nm hnm =>
    List.filter_eq_nil_iff.mpr fun a ha => by
      simp [name_of_mem_tablesPart objs a ha, beq_iff_eq]
      exact fun e => hnm e.symm
  have fC : ∀ nm : String, nm ≠ "nft_chain" →
      (chainsPart objs).filter (fun l => metricName l == nm) = [] := fun nm hnm =>
    List.filter_eq_nil_iff.mpr fun a ha => by
      simp [name_of_mem_chainsPart objs a ha, beq_iff_eq]
      exact fun e => hnm e.symm
  have fK : ∀ nm : String, nm ≠ "nft_counter_packets" → nm ≠ "nft_counter_bytes" →
      (countersPart objs).filter (fun l => metricName l == nm) = [] :=
    fun nm h1 h2 =>
    List.filter_eq_nil_iff.mpr fun a ha => by
      rcases name_of_mem_countersPart objs a ha with he | he <;>
        simp [he, beq_iff_eq] <;> [exact fun e => h1 e.symm; exact fun e => h2 e.symm]
  refine ⟨?_, ?_, ?_, ?_⟩
  · rw [metrics_split]
    simp only [List.filter_append]
    rw [fC "nft_table" (by decide), fK "nft_table" (by decide) (by decide),
      List.append_nil, List.append_nil]
    rw [List.filter_eq_self.mpr fun a ha => by
      simp [name_of_mem_tablesPart objs a ha]]
    unfold tablesPart
    rw [find_objs_table objs h]
  · rw [metrics_split]
    simp only [List.filter_append]
    rw [fT "nft_chain" (by decide), fK "nft_chain" (by decide) (by decide),
      List.append_nil, List.nil_append]
    rw [List.filter_eq_self.mpr fun a ha => by
      simp [name_of_mem_chainsPart objs a ha]]
    unfold chainsPart
    rw [find_objs_chain objs h]
  · rw [metrics_split]
    simp only [List.filter_append]
    rw [fT "nft_counter_packets" (by decide), fC "nft_counter_packets" (by decide),
      List.nil_append, List.nil_append]
    unfold countersPart
    rw [filter_flatMap_pairs _ _ _ _
      (fun a => by simp [metricName_counterPacketsLine])
      (fun a => by simp [metricName_counterBytesLine]), find_objs_counter objs h]
  · rw [metrics_split]
    simp only [List.filter_append]
    rw [fT "nft_counter_bytes" (by decide), fC "nft_counter_bytes" (by decide),
      List.nil_append, List.nil_append]
    unfold countersPart
    rw [filter_flatMap_pairs_snd _ _ _ _
      (fun a => by simp [metricName_counterPacketsLine])
      (fun a => by simp [metricName_counterBytesLine]), find_objs_counter objs h]

/-- C5 amended: the flattener's output follows the snapshot's order of
appearance within each entity kind (the subsequence of lines of each
metric name equals the in-order image of that kind's entities), while
across kinds the output is grouped tables, then chains, then counters. -/
theorem c5_within_kind_order (objs : List NftObj) (h : WfRuleset objs) :
    (metricsOf objs).filter (fun l => metricName l == "nft_table") =
        (objs.filter NftObj.isTable).map (fun o => tableLine o.tableData) ∧
    (metricsOf objs).filter (fun l => metricName l == "nft_chain") =
        (objs.filter NftObj.isChain).map (fun o => chainLine o.chainData) ∧
    (metricsOf objs).filter (fun l => metricName l == "nft_counter_packets") =
        (objs.filter NftObj.isCounter).map (fun o => counterPacketsLine o.counterData) ∧
    (metricsOf objs).filter (fun l => metricName l == "nft_counter_bytes") =
        (objs.filter NftObj.isCounter).map (fun o => counterBytesLine o.counterData) :=
  parts_within_kind objs h

theorem c5_within_kind_order_witness :
    (metricsOf [NftObj.chain ⟨"ip", "t", "c1"⟩, NftObj.table ⟨"ip", "t"⟩,
        NftObj.chain ⟨"ip", "t", "c2"⟩]).filter
        (fun l => metricName l == "nft_chain") =
      ([NftObj.chain ⟨"ip", "t", "c1"⟩, NftObj.table ⟨"ip", "t"⟩,
        NftObj.chain ⟨"ip", "t", "c2"⟩].filter NftObj.isChain).map
        (fun o => chainLine o.chainData) :=
  (c5_within_kind_order
    [NftObj.chain ⟨"ip", "t", "c1"⟩, NftObj.table ⟨"ip", "t"⟩,
     NftObj.chain ⟨"ip", "t", "c2"⟩] (by decide)).2.1

/-- C6: the encoder does not escape label values: a table name holding a
double quote, a backslash and a newline is spliced verbatim into the
emitted line, which therefore differs from the line the exposition
format's escaping rule would produce. -/
theorem c6_unescaped_label_values :
    metricsOf [NftObj.table ⟨"ip", "f\"oo\\b\nar"⟩] =
      ["nft_table\x7bfamily=\"ip\", name=\"f\"oo\\b\nar\"\x7d 1"] ∧
    "nft_table\x7bfamily=\"ip\", name=\"f\"oo\\b\nar\"\x7d 1" ≠
      "nft_table\x7bfamily=\"ip\", name=\"" ++
        (escapeLabelValue "f\"oo\\b\nar" ++ "\"\x7d 1") := by
  decide

/-- C7: when the engine succeeds and the ruleset parses to an empty
entity list, nothing raises: /metrics answers 200 with an empty body
(and the exposition content type), and run-once prints the empty
document and exits 0. -/
theorem c7_empty_ruleset_ok (cmd : CmdResult) (h0 : cmd.rc = 0)
    (h : cmd.parsed = some []) :
    (generate_metrics cmd ⟨[], []⟩).exc = none ∧
    (do_GET cmd "/metrics" ⟨[], []⟩ conn0).2 =
      ⟨some 200, [("Content-Type", CONTENT_TYPE_LATEST)], "", false⟩ ∧
    run_once cmd = (some "", 0) := by
  refine ⟨?_, ?_, ?_⟩
  · unfold generate_metrics load_nft_ruleset
    rw [h]
  · rw [do_GET_metrics]
    unfold route generate_metrics load_nft_ruleset
    rw [h, if_pos rfl]
    rfl
  · unfold run_once generate_metrics load_nft_ruleset
    rw [h, h0]
    rfl

theorem c7_empty_ruleset_ok_witness :
    (generate_metrics ⟨0, some [], ""⟩ ⟨[], []⟩).exc = none ∧
    (do_GET ⟨0, some [], ""⟩ "/metrics" ⟨[], []⟩ conn0).2 =
      ⟨some 200, [("Content-Type", CONTENT_TYPE_LATEST)], "", false⟩ ∧
    run_once ⟨0, some [], ""⟩ = (some "", 0) :=
  c7_empty_ruleset_ok ⟨0, some [], ""⟩ rfl rfl

/-- C8: running the flatten-and-encode pipeline a second time over the
same engine snapshot, starting from the state the first run left
behind, reproduces the first run's metric lines, outcome and encoded
text byte for byte: the pipeline output is a function of the snapshot,
unaffected by prior runs. -/
theorem c8_pipeline_idempotent (cmd : CmdResult) (ctx : Ctx) :
    (generate_metrics cmd (generate_metrics cmd ctx).ctx).ctx.metrics =
        (generate_metrics cmd ctx).ctx.metrics ∧
    (generate_metrics cmd (generate_metrics cmd ctx).ctx).exc =
        (generate_metrics cmd ctx).exc ∧
    String.intercalate "\n"
        (generate_metrics cmd (generate_metrics cmd ctx).ctx).ctx.metrics =
      String.intercalate "\n" (generate_metrics cmd ctx).ctx.metrics := by
  cases hp : cmd.parsed with
  | none =>
      unfold generate_metrics load_nft_ruleset
      rw [hp]
      exact ⟨rfl, rfl, rfl⟩
  | some objs =>
      unfold generate_metrics load_nft_ruleset
      rw [hp]
      exact ⟨rfl, rfl, rfl⟩

/-- C9: the flattener's output is grouped by kind - every nft_table line
precedes every nft_chain line, and both precede every counter line,
however the kinds are interleaved in the snapshot; within one kind the
snapshot order is preserved; and each counter's packets line is
immediately followed by that same counter's bytes line. -/
theorem c9_grouped_by_kind (objs : List NftObj) (h : WfRuleset objs) :
    (∀ i j, i < (metricsOf objs).length → j < (metricsOf objs).length →
        metricName ((metricsOf objs).getD i "") = "nft_table" →
        metricName ((metricsOf objs).getD j "") = "nft_chain" → i < j) ∧
    (∀ i j, i < (metricsOf objs).length → j < (metricsOf objs).length →
        metricName ((metricsOf objs).getD i "") = "nft_table" →
        (metricName ((metricsOf objs).getD j "") = "nft_counter_packets" ∨
          metricName ((metricsOf objs).getD j "") = "nft_counter_bytes") →
        i < j) ∧
    (∀ i j, i < (metricsOf objs).length → j < (metricsOf objs).length →
        metricName ((metricsOf objs).getD i "") = "nft_chain" →
        (metricName ((metricsOf objs).getD j "") = "nft_counter_packets" ∨
          metricName ((metricsOf objs).getD j "") = "nft_counter_bytes") →
        i < j) ∧
    ((metricsOf objs).filter (fun l => metricName l == "nft_table") =
        (objs.filter NftObj.isTable).map (fun o => tableLine o.tableData) ∧
      (metricsOf objs).filter (fun l => metricName l == "nft_chain") =
        (objs.filter NftObj.isChain).map (fun o => chainLine o.chainData)) ∧
    (∀ i, i < (metricsOf objs).length →
        metricName ((metricsOf objs).getD i "") = "nft_counter_packets" →
        ∃ cd, NftObj.counter cd ∈ objs ∧
          (metricsOf objs).getD i "" = counterPacketsLine cd ∧
          i + 1 < (metricsOf objs).length ∧
          (metricsOf objs).getD (i + 1) "" = counterBytesLine cd) := by
  have hsplit := metrics_split objs
  have notTafter : ∀ x ∈ chainsPart objs ++ countersPart objs,
      ¬ metricName x = "nft_table" := by
    intro x hx
    rcases List.mem_append.mp hx with hx | hx
    · rw [name_of_mem_chainsPart objs x hx]
      decide
    · rcases name_of_mem_countersPart objs x hx with he | he <;> rw [he] <;> decide
  have tNotChain : ∀ x ∈ tablesPart objs, ¬ metricName x = "nft_chain" :=
    fun x hx => by
      rw [name_of_mem_tablesPart objs x hx]
      decide
  have tNotCtr : ∀ x ∈ tablesPart objs,
      ¬(metricName x = "nft_counter_packets" ∨
        metricName x = "nft_counter_bytes") := fun x hx => by
    rw [name_of_mem_tablesPart objs x hx]
    decide
  have tcNotCtr : ∀ x ∈ tablesPart objs ++ chainsPart objs,
      ¬(metricName x = "nft_counter_packets" ∨
        metricName x = "nft_counter_bytes") := by
    intro x hx
    rcases List.mem_append.mp hx with hx | hx
    · rw [name_of_mem_tablesPart objs x hx]
      decide
    · rw [name_of_mem_chainsPart objs x hx]
      decide
  have kNotChain : ∀ x ∈ countersPart objs, ¬ metricName x = "nft_chain" := by
    intro x hx
    rcases name_of_mem_countersPart objs x hx with he | he <;> rw [he] <;> decide
  have tcNotPackets : ∀ x ∈ tablesPart objs ++ chainsPart objs,
      ¬ metricName x = "nft_counter_packets" := by
    intro x hx
    rcases List.mem_append.mp hx with hx | hx
    · rw [name_of_mem_tablesPart objs x hx]
      decide
    · rw [name_of_mem_chainsPart objs x hx]
      decide
  have hassoc : metricsOf objs =
      tablesPart objs ++ (chainsPart objs ++ countersPart objs) := by
    rw [hsplit, List.append_assoc]
  refine ⟨?_, ?_, ?_, ⟨(parts_within_kind objs h).1, (parts_within_kind objs h).2.1⟩, ?_⟩
  · intro i j hi hj hni hnj
    rw [hassoc] at hi hni hnj
    have hiT := idx_lt_of_pred "" (fun s => metricName s = "nft_table")
      (tablesPart objs) (chainsPart objs ++ countersPart objs) i hi notTafter hni
    have hjT := len_le_idx_of_pred "" (fun s => metricName s = "nft_chain")
      (tablesPart objs) (chainsPart objs ++ countersPart objs) j tNotChain hnj
    exact lt_of_lt_of_le hiT hjT
  · intro i j hi hj hni hnj
    rw [hassoc] at hi hni hnj
    have hiT := idx_lt_of_pred "" (fun s => metricName s = "nft_table")
      (tablesPart objs) (chainsPart objs ++ countersPart objs) i hi notTafter hni
    have hjT := len_le_idx_of_pred ""
      (fun s => metricName s = "nft_counter_packets" ∨
        metricName s = "nft_counter_bytes")
      (tablesPart objs) (chainsPart objs ++ countersPart objs) j tNotCtr hnj
    exact lt_of_lt_of_le hiT hjT
  · intro i j hi hj hni hnj
    rw [hsplit] at hi hni hnj
    have hiC := idx_lt_of_pred "" (fun s => metricName s = "nft_chain")
      (tablesPart objs ++ chainsPart objs) (countersPart objs) i hi kNotChain hni
    have hjC := len_le_idx_of_pred ""
      (fun s => metricName s = "nft_counter_packets" ∨
        metricName s = "nft_counter_bytes")
      (tablesPart objs ++ chainsPart objs) (countersPart objs) j tcNotCtr hnj
    exact lt_of_lt_of_le hiC hjC
  · intro i hi hni
    rw [hsplit] at hi hni
    have hbase := len_le_idx_of_pred "" (fun s => metricName s = "nft_counter_packets")
      (tablesPart objs ++ chainsPart objs) (countersPart objs) i tcNotPackets hni
    rw [getD_append_ge _ _ _ _ hbase] at hni
    have hmlt : i - (tablesPart objs ++ chainsPart objs).length <
        (countersPart objs).length := by
      rw [List.length_append] at hi
      omega
    obtain ⟨o, ho, h1, h2, h3⟩ :=
      flatMap_pairs_adjacent (fun o => counterPacketsLine o.counterData)
        (fun o => counterBytesLine o.counterData) (find_objs objs "counter")
        "nft_counter_packets"
        (fun a => by
          rw [metricName_counterBytesLine]
          decide)
        (i - (tablesPart objs ++ chainsPart objs).length) hni hmlt
    have hKdef : countersPart objs = ((find_objs objs "counter").flatMap
        fun o => [counterPacketsLine o.counterData, counterBytesLine o.counterData]) :=
      rfl
    rw [← hKdef] at h1 h2 h3
    rw [find_objs_counter objs h] at ho
    obtain ⟨homem, hoc⟩ := List.mem_filter.mp ho
    cases o with
    | table t => simp [NftObj.isCounter] at hoc
    | chain c => simp [NftObj.isCounter] at hoc
    | other k => simp [NftObj.isCounter] at hoc
    | counter cd =>
        refine ⟨cd, homem, ?_, ?_, ?_⟩
        · rw [hsplit, getD_append_ge _ _ _ _ hbase]
          exact h1
        · rw [hsplit, List.length_append]
          rw [List.length_append] at hi
          omega
        · rw [hsplit, getD_append_ge _ _ _ _ (le_trans hbase (Nat.le_succ i))]
          rw [show i + 1 - (tablesPart objs ++ chainsPart objs).length =
            i - (tablesPart objs ++ chainsPart objs).length + 1 from by omega]
          exact h3

theorem c9_grouped_by_kind_witness :
    (0 : Nat) < 1 ∧
    (∃ cd, NftObj.counter cd ∈
        [NftObj.counter ⟨"ip", "t", "c", 1, 2⟩, NftObj.chain ⟨"ip", "t", "in"⟩,
          NftObj.table ⟨"ip", "t"⟩] ∧
      (metricsOf [NftObj.counter ⟨"ip", "t", "c", 1, 2⟩,
          NftObj.chain ⟨"ip", "t", "in"⟩, NftObj.table ⟨"ip", "t"⟩]).getD 2 "" =
        counterPacketsLine cd ∧
      2 + 1 < (metricsOf [NftObj.counter ⟨"ip", "t", "c", 1, 2⟩,
          NftObj.chain ⟨"ip", "t", "in"⟩, NftObj.table ⟨"ip", "t"⟩]).length ∧
      (metricsOf [NftObj.counter ⟨"ip", "t", "c", 1, 2⟩,
          NftObj.chain ⟨"ip", "t", "in"⟩, NftObj.table ⟨"ip", "t"⟩]).getD (2 + 1) "" =
        counterBytesLine cd) :=
  ⟨(c9_grouped_by_kind
      [NftObj.counter ⟨"ip", "t", "c", 1, 2⟩, NftObj.chain ⟨"ip", "t", "in"⟩,
        NftObj.table ⟨"ip", "t"⟩] (by decide)).1 0 1
      (by decide) (by decide) (by decide) (by decide),
   (c9_grouped_by_kind
      [NftObj.counter ⟨"ip", "t", "c", 1, 2⟩, NftObj.chain ⟨"ip", "t", "in"⟩,
        NftObj.table ⟨"ip", "t"⟩] (by decide)).2.2.2.2 2 (by decide) (by decide)⟩

/-- C10: the server's routing and response depend only on the path
component of the request target: any two targets with the same parsed
path are handled identically; concretely, for a path free of query and
fragment delimiters, appending a question mark plus anything, or a hash
plus anything, leaves the parsed path - and hence the response -
exactly that of the bare path. -/
theorem c10_query_fragment_ignored (cmd : CmdResult) (ctx : Ctx) (c : Conn)
    (p q1 q2 f : String) (h1 : '?' ∉ p.data) (h2 : '#' ∉ p.data) :
    (∀ u1 u2 : String, urlparse_path u1 = urlparse_path u2 →
        do_GET cmd u1 ctx c = do_GET cmd u2 ctx c) ∧
    urlparse_path (p ++ ("?" ++ q1)) = urlparse_path p ∧
    urlparse_path (p ++ ("#" ++ f)) = urlparse_path p ∧
    do_GET cmd (p ++ ("?" ++ q1)) ctx c = do_GET cmd (p ++ ("?" ++ q2)) ctx c ∧
    do_GET cmd (p ++ ("?" ++ q1)) ctx c = do_GET cmd p ctx c ∧
    do_GET cmd (p ++ ("#" ++ f)) ctx c = do_GET cmd p ctx c := by
  have hdo : ∀ u1 u2 : String, urlparse_path u1 = urlparse_path u2 →
      do_GET cmd u1 ctx c = do_GET cmd u2 ctx c := by
    intro u1 u2 hu
    unfold do_GET
    rw [hu]
  have hq : ∀ q : String, urlparse_path (p ++ ("?" ++ q)) = urlparse_path p :=
    fun q => urlparse_path_append p q.data '?' (Or.inl rfl) h1 h2
  have hf : urlparse_path (p ++ ("#" ++ f)) = urlparse_path p :=
    urlparse_path_append p f.data '#' (Or.inr rfl) h1 h2
  exact ⟨hdo, hq q1, hf, hdo _ _ ((hq q1).trans (hq q2).symm), hdo _ _ (hq q1),
    hdo _ _ hf⟩

theorem c10_query_fragment_ignored_witness :
    (do_GET ⟨0, some [], ""⟩ "/metrics?x=y" ⟨[], []⟩ conn0 =
      do_GET ⟨0, some [], ""⟩ "/metrics?a=b#frag" ⟨[], []⟩ conn0) ∧
    (do_GET ⟨0, some [], ""⟩ "/metrics?x=y" ⟨[], []⟩ conn0 =
      do_GET ⟨0, some [], ""⟩ "/metrics" ⟨[], []⟩ conn0) ∧
    (do_GET ⟨0, some [], ""⟩ "/metrics#f" ⟨[], []⟩ conn0 =
      do_GET ⟨0, some [], ""⟩ "/metrics" ⟨[], []⟩ conn0) :=
  ⟨(c10_query_fragment_ignored ⟨0, some [], ""⟩ ⟨[], []⟩ conn0 "/metrics" "x=y"
      "a=b#frag" "f" (by decide) (by decide)).2.2.2.1,
   (c10_query_fragment_ignored ⟨0, some [], ""⟩ ⟨[], []⟩ conn0 "/metrics" "x=y"
      "a=b#frag" "f" (by decide) (by decide)).2.2.2.2.1,
   (c10_query_fragment_ignored ⟨0, some [], ""⟩ ⟨[], []⟩ conn0 "/metrics" "x=y"
      "a=b#frag" "f" (by decide) (by decide)).2.2.2.2.2⟩
